import Mathlib

/-!
Shallow embedding of the PDF utility in `src/streamlit_app.py`.

The program offers two stateless operations built from one conversion library:

* a page extractor (lines 138-148): given a parsed PDF (a sequence of pages)
  and a list of 1-based page numbers, it warns on an empty selection and
  otherwise copies `reader.pages[p - 1]` for each selected `p` into a fresh
  writer, in selection order;
* a merger (lines 180-191): appends every page of the first reader, then every
  page of the second reader, into a fresh writer;
* `convert_to_pdf` (lines 84-119): dispatches on the lowercased last
  `"."`-separated component of the uploaded filename — `pdf` bytes pass
  through unchanged, raster images are decoded and (when the decoded mode is
  exactly `"RGBA"` or `"P"`) converted to `"RGB"` before being saved as a
  one-image PDF, `txt`/`md` are decoded as UTF-8 and rendered, `docx`
  paragraphs are joined with blank lines and rendered, and anything else
  raises a `ValueError` carrying the extension;
* `create_pdf_from_text` (lines 13-57): splits the text on `"\n\n"`, replaces
  each remaining `"\n"` with the reportlab markup `"<br/>"`, and emits one
  `Paragraph` flowable plus a `Spacer` per segment, using the registered user
  font when a font path is given and registration succeeds, `Helvetica`
  otherwise.

Pages are modelled abstractly (a PDF is a list of pages; `add_page` copies a
page value), Python `bytes` as `List Nat`, and the external decoders
(Pillow `Image.open`, `bytes.decode`, `python-docx`, reportlab font
registration) as oracle functions collected in `Env`, since their internals
are library code, not part of this repository.  Python list indexing on
`reader.pages` follows pypdf's `_VirtualList.__getitem__`: a negative index
`i` is first shifted by the length, then any index outside `[0, len)` raises
`IndexError`.
-/

/-- Python `bytes`, modelled as a list of byte values. -/
abbrev Bytes := List Nat

/-- A Streamlit upload: a declared filename plus the uploaded bytes
(`uploaded_file.name` / `uploaded_file.read()`). -/
structure UploadedFile where
  name : String
  data : Bytes
  deriving DecidableEq

/-- Python `name.split(".")` for the one-character separator `"."`:
splits into (possibly empty) components, never dropping empties, and always
returns at least one component. -/
def splitDot : List Char → List (List Char)
  | [] => [[]]
  | c :: rest =>
    match splitDot rest with
    | [] => [[c]]
    | h :: t => if c = '.' then [] :: h :: t else (c :: h) :: t

/-- Python `s.lower()`, modelled characterwise. -/
def pyLower (s : List Char) : List Char := s.map Char.toLower

/-- The extension computed at line 86: `name.split(".")[-1].lower()`. -/
def fileExt (name : String) : String :=
  String.mk (pyLower ((splitDot name.data).getLastD []))

/-- The characters of the reportlab line-break markup `"<br/>"`. -/
def brChars : List Char := ['<', 'b', 'r', '/', '>']

/-- Python `para.replace("\n", "<br/>")` (line 53), modelled characterwise. -/
def replaceNl : List Char → List Char
  | [] => []
  | c :: rest => if c = '\n' then brChars ++ replaceNl rest else c :: replaceNl rest

/-- Python `text.split("\n\n")` (line 52): left-to-right, non-overlapping
split on the two-character separator, keeping empty segments. -/
def splitPar : List Char → List (List Char)
  | [] => [[]]
  | [c] => [[c]]
  | c :: d :: rest =>
    if c = '\n' ∧ d = '\n' then
      [] :: splitPar rest
    else
      match splitPar (d :: rest) with
      | [] => [[c]]
      | h :: t => (c :: h) :: t

/-- A reportlab flowable appended by `create_pdf_from_text`: either a
`Paragraph(markup, style)` (the style's font name is what the font logic can
vary) or a `Spacer(width, height)`. -/
inductive Flowable where
  | para (markup : String) (fontName : String)
  | spacer (width : Nat) (height : Nat)
  deriving DecidableEq

/-- The flowable list built by `create_pdf_from_text` (lines 13-57).
`registerOk fp` is the oracle for `pdfmetrics.registerFont` succeeding on the
font file at `fp`; Python's `if font_path:` is falsy for both `None` and the
empty string.  `doc.build(flow)` serializes this list, so the list is our
model of the produced PDF content. -/
def create_pdf_from_text (registerOk : String → Bool) (text : String)
    (fontPath : Option String) : List Flowable :=
  let fontName :=
    match fontPath with
    | none => "Helvetica"
    | some fp => if fp ≠ "" ∧ registerOk fp then "UserFont" else "Helvetica"
  List.foldl
    (fun flow para =>
      flow ++ [Flowable.para (String.mk (replaceNl para)) fontName, Flowable.spacer 1 6])
    [] (splitPar text.data)

/-- The paragraph markups of a flowable list, in order (spacers dropped). -/
def paragraphsOf (flow : List Flowable) : List String :=
  flow.filterMap fun f =>
    match f with
    | Flowable.para m _ => some m
    | Flowable.spacer _ _ => none

/-- A decoded Pillow image: its pixel `mode` string (as reported by
`img.mode`) and native pixel dimensions. -/
structure PILImage where
  mode : String
  width : Nat
  height : Nat
  deriving DecidableEq

/-- Lines 98-99: `if img.mode in ("RGBA", "P"): img = img.convert("RGB")`.
Pillow's `convert("RGB")` keeps the pixel dimensions and drops the alpha
channel or palette without compositing. -/
def flattenImage (img : PILImage) : PILImage :=
  if img.mode = "RGBA" ∨ img.mode = "P" then
    PILImage.mk "RGB" img.width img.height
  else
    img

/-- Modelled from the spec: the Pillow pixel modes that "carry an alpha
channel" (`RGBA`, `LA`, `PA`, `RGBa`, `La`) "or a palette" (`P`, `PA`).
Pillow reports mode `LA` for a grayscale-plus-alpha PNG, so such modes are
reachable from `Image.open` on the supported raster formats. -/
def modeCarriesAlphaOrPalette (mode : String) : Bool :=
  mode ∈ (["RGBA", "LA", "PA", "RGBa", "La", "P"] : List String)

/-- The PDF bytes produced by `convert_to_pdf`: either the input bytes passed
through unchanged (line 91), the single decoded image saved as a one-page PDF
at its native size via `img.save(out, format="PDF")` (lines 101-103), or the
serialization of a reportlab flowable list (lines 108, 117). -/
inductive PdfBytes where
  | raw (data : Bytes)
  | imagePdf (img : PILImage)
  | textPdf (flow : List Flowable)
  deriving DecidableEq

/-- The `ValueError` raised at line 119; it carries the offending extension
string inside its message. -/
inductive ConvertError where
  | UnsupportedFormat (ext : String)
  deriving DecidableEq

/-- Oracles for the external libraries used by `convert_to_pdf`:
`Image.open` on the uploaded bytes, `bytes.decode("utf-8", errors="replace")`,
the `python-docx` paragraph-text list, and reportlab font registration. -/
structure Env where
  decodeImage : Bytes → PILImage
  decodeUtf8 : Bytes → String
  decodeDocx : Bytes → List String
  registerOk : String → Bool

/-- The raster-image extensions accepted at line 94. -/
def imageExts : List String := ["png", "jpg", "jpeg", "bmp", "gif", "tiff"]

/-- Every extension `convert_to_pdf` accepts without raising. -/
def supportedExts : List String := "pdf" :: imageExts ++ ["txt", "md", "docx"]

/-- `convert_to_pdf` (lines 84-119). -/
def convert_to_pdf (env : Env) (file : UploadedFile) (fontPath : Option String) :
    Except ConvertError PdfBytes :=
  let ext := fileExt file.name
  if ext = "pdf" then
    Except.ok (PdfBytes.raw file.data)
  else if ext ∈ imageExts then
    Except.ok (PdfBytes.imagePdf (flattenImage (env.decodeImage file.data)))
  else if ext = "txt" ∨ ext = "md" then
    Except.ok (PdfBytes.textPdf
      (create_pdf_from_text env.registerOk (env.decodeUtf8 file.data) fontPath))
  else if ext = "docx" then
    Except.ok (PdfBytes.textPdf
      (create_pdf_from_text env.registerOk
        (String.intercalate "\n\n" (env.decodeDocx file.data)) fontPath))
  else
    Except.error (ConvertError.UnsupportedFormat ext)

/-- A concrete oracle environment for evaluating the converter. -/
def envDefault : Env :=
  Env.mk (fun _ => PILImage.mk "RGB" 1 1) (fun _ => "") (fun _ => []) (fun _ => false)

/-- A concrete oracle environment whose image decoder yields a
grayscale-plus-alpha (`LA`) image, as Pillow does for a grayscale PNG with an
alpha channel. -/
def envLA : Env :=
  Env.mk (fun _ => PILImage.mk "LA" 3 4) (fun _ => "") (fun _ => []) (fun _ => false)

/-- The outcomes of the extraction handler that produce no output PDF: the
empty-selection warning at line 140, and the `IndexError` escaping from
`reader.pages[p - 1]`, caught at line 157. -/
inductive ExtractError where
  | EmptySelection
  | PageIndexOutOfRange
  deriving DecidableEq

/-- pypdf `_VirtualList.__getitem__` on `reader.pages`: a negative index is
shifted by the length (Python negative indexing); an index outside
`[0, length)` raises `IndexError` (modelled as `none`). -/
def pyGetPage {α : Type} (xs : List α) (i : Int) : Option α :=
  let j : Int := if i < 0 then i + xs.length else i
  if j < 0 then none else xs[j.toNat]?

/-- The loop at lines 143-144: `for p in pages: writer.add_page(reader.pages[p - 1])`;
`none` models the loop aborting with `IndexError`. -/
def addPages {α : Type} (src : List α) : List Int → Option (List α)
  | [] => some []
  | p :: rest =>
    match pyGetPage src (p - 1) with
    | none => none
    | some pg =>
      match addPages src rest with
      | none => none
      | some out => some (pg :: out)

/-- The extraction handler (lines 138-148) on an already-parsed source PDF:
empty selections are rejected at line 139, and otherwise the selected pages
are copied in selection order. -/
def extractPages {α : Type} (src : List α) (sel : List Int) :
    Except ExtractError (List α) :=
  if sel = [] then Except.error ExtractError.EmptySelection
  else
    match addPages src sel with
    | none => Except.error ExtractError.PageIndexOutOfRange
    | some out => Except.ok out

/-- The merge loops at lines 183-187: append every page of the first reader,
then every page of the second, into a fresh writer. -/
def mergePdfs {α : Type} (r1 r2 : List α) : List α :=
  let writer := List.foldl (fun acc p => acc ++ [p]) [] r1
  List.foldl (fun acc p => acc ++ [p]) writer r2

/-! ### Helper lemmas -/

/-- Appending elements one at a time (the `writer.add_page` loop) appends the
whole list. -/
theorem foldl_push {α : Type} (l : List α) :
    ∀ acc : List α, List.foldl (fun acc p => acc ++ [p]) acc l = acc ++ l := by
  induction l with
  | nil => intro acc; simp
  | cons h t ih => intro acc; rw [List.foldl_cons, ih]; simp

/-- Python string split never produces an empty component list. -/
theorem splitDot_ne_nil (s : List Char) : splitDot s ≠ [] := by
  cases s with
  | nil => simp [splitDot]
  | cons c rest =>
    simp only [splitDot]
    cases splitDot rest with
    | nil => simp
    | cons h t => by_cases hc : c = '.' <;> simp [hc]

/-- Splitting a dot-free name on `"."` yields the name as its only component. -/
theorem splitDot_no_dot (s : List Char) (h : '.' ∉ s) : splitDot s = [s] := by
  induction s with
  | nil => rfl
  | cons c rest ih =>
    have hc : c ≠ '.' := by intro e; exact h (by simp [e])
    have hr : '.' ∉ rest := fun m => h (List.mem_cons_of_mem _ m)
    simp [splitDot, ih hr, hc]

/-- Indexing `reader.pages[p - 1]` with an in-range 1-based `p` looks up the
0-based position `p - 1`. -/
theorem pyGetPage_in_range {α : Type} (src : List α) (p : Int)
    (h1 : 1 ≤ p) (h2 : p ≤ (src.length : Int)) :
    (p - 1).toNat < src.length ∧ pyGetPage src (p - 1) = src[(p - 1).toNat]? := by
  have hlt : (p - 1).toNat < src.length := by omega
  have h0 : ¬ (p - 1 < 0) := by omega
  exact ⟨hlt, by simp [pyGetPage, h0]⟩

/-- Indexing `reader.pages[p - 1]` raises `IndexError` exactly outside
`1 - N ≤ p ≤ N` (Python's negative indexing absorbs `[1 - N, 0]`). -/
theorem pyGetPage_out {α : Type} (src : List α) (p : Int)
    (h : (src.length : Int) < p ∨ p < 1 - (src.length : Int)) :
    pyGetPage src (p - 1) = none := by
  rcases h with h | h
  · have h0 : ¬ (p - 1 < 0) := by omega
    simp [pyGetPage, h0]
    omega
  · have h0 : p - 1 < 0 := by omega
    have h1 : p - 1 + (src.length : Int) < 0 := by omega
    simp [pyGetPage, h0, h1]

/-- When every selected index is in `1..N`, the `add_page` loop collects
exactly the selected source pages, in selection order. -/
theorem addPages_ok {α : Type} (src : List α) :
    ∀ sel : List Int, (∀ p ∈ sel, 1 ≤ p ∧ p ≤ (src.length : Int)) →
      ∃ out, addPages src sel = some out ∧ out.length = sel.length ∧
        ∀ k : Nat, k < sel.length →
          ∃ p, sel[k]? = some p ∧ out[k]? = src[(p - 1).toNat]?
  | [], _ => ⟨[], rfl, rfl, fun k hk => absurd hk (by simp)⟩
  | q :: rest, h => by
    obtain ⟨h1, h2⟩ := h q (List.mem_cons_self _ _)
    obtain ⟨hlt, hget⟩ := pyGetPage_in_range src q h1 h2
    obtain ⟨out, ho, hlen, hpt⟩ :=
      addPages_ok src rest (fun p hp => h p (List.mem_cons_of_mem _ hp))
    have hsome : src[(q - 1).toNat]? = some src[(q - 1).toNat] :=
      List.getElem?_eq_getElem hlt
    refine ⟨src[(q - 1).toNat] :: out, ?_, by simp [hlen], ?_⟩
    · simp only [addPages, hget, hsome, ho]
    · intro k hk
      cases k with
      | zero => exact ⟨q, by simp, by simp [hsome]⟩
      | succ k' =>
        obtain ⟨p, hp1, hp2⟩ := hpt k' (by simpa using hk)
        exact ⟨p, by simpa using hp1, by simpa using hp2⟩

/-- If some selected index is outside `[1 - N, N]`, the `add_page` loop
aborts with `IndexError`. -/
theorem addPages_none {α : Type} (src : List α) :
    ∀ sel : List Int,
      (∃ p ∈ sel, (src.length : Int) < p ∨ p < 1 - (src.length : Int)) →
      addPages src sel = none
  | [], h => by simp at h
  | q :: rest, h => by
    rcases h with ⟨p, hp, hbad⟩
    rcases List.mem_cons.mp hp with rfl | hmem
    · simp [addPages, pyGetPage_out src p hbad]
    · cases hq : pyGetPage src (q - 1) with
      | none => simp [addPages, hq]
      | some pg => simp [addPages, hq, addPages_none src rest ⟨p, hmem, hbad⟩]

/-! ### Claims about extraction and merging -/

/-- C1: for every source PDF and every non-empty selection of 1-based indices
drawn from `1..N` (repetition and arbitrary order allowed), extraction
succeeds, the output page count equals the selection length, and the output's
k-th page is the source page at position `selection[k]`. -/
theorem claim_C1_extract_selected_pages {α : Type} (src : List α) (sel : List Int)
    (hne : sel ≠ []) (hin : ∀ p ∈ sel, 1 ≤ p ∧ p ≤ (src.length : Int)) :
    ∃ out, extractPages src sel = Except.ok out ∧
      out.length = sel.length ∧
      ∀ k : Nat, k < sel.length →
        ∃ p, sel[k]? = some p ∧ out[k]? = src[(p - 1).toNat]? := by
  obtain ⟨out, ho, hlen, hpt⟩ := addPages_ok src sel hin
  exact ⟨out, by simp [extractPages, hne, ho], hlen, hpt⟩

theorem claim_C1_witness :
    (([3, 1, 3] : List Int) ≠ [] ∧
      ∀ p ∈ ([3, 1, 3] : List Int), 1 ≤ p ∧ p ≤ ((([10, 20, 30] : List Nat).length : Int))) ∧
    ∃ out, extractPages ([10, 20, 30] : List Nat) ([3, 1, 3] : List Int) = Except.ok out ∧
      out.length = ([3, 1, 3] : List Int).length ∧
      ∀ k : Nat, k < ([3, 1, 3] : List Int).length →
        ∃ p, (([3, 1, 3] : List Int))[k]? = some p ∧
          out[k]? = (([10, 20, 30] : List Nat))[(p - 1).toNat]? :=
  ⟨⟨by decide, by decide⟩,
    claim_C1_extract_selected_pages ([10, 20, 30] : List Nat) ([3, 1, 3] : List Int)
      (by decide) (by decide)⟩

/-- C2: merging two parsed PDFs yields exactly the pages of the first,
in order, followed by the pages of the second, in order, with no
interleaving; in particular the output page count is `A + B`. -/
theorem claim_C2_merge_concat {α : Type} (d1 d2 : List α) :
    mergePdfs d1 d2 = d1 ++ d2 ∧
    (mergePdfs d1 d2).length = d1.length + d2.length ∧
    (mergePdfs d1 d2).take d1.length = d1 ∧
    (mergePdfs d1 d2).drop d1.length = d2 := by
  have e : mergePdfs d1 d2 = d1 ++ d2 := by
    simp [mergePdfs, foldl_push]
  exact ⟨e, by simp [e], by simp [e, List.take_left], by simp [e, List.drop_left]⟩

/-- C3 counterexample: on a one-page source, the selection `[0]` does not
fail with `PageIndexOutOfRange` — `reader.pages[0 - 1]` is Python negative
indexing and silently selects the last page, so extraction succeeds. -/
theorem claim_C3_counterexample :
    extractPages ([5] : List Nat) ([0] : List Int) = Except.ok [5] ∧
    extractPages ([5] : List Nat) ([0] : List Int) ≠
      Except.error ExtractError.PageIndexOutOfRange := by
  have e : extractPages ([5] : List Nat) ([0] : List Int) = Except.ok [5] := rfl
  exact ⟨e, by rw [e]; exact fun h => nomatch h⟩

/-- C3 amended: extraction on a non-empty selection fails with
`PageIndexOutOfRange` when some index exceeds the page count N or lies below
`1 - N`; an index in `[1 - N, 0]` (in particular 0 when N ≥ 1) instead
selects a page from the end of the document via Python negative indexing. -/
theorem claim_C3_index_out_of_range {α : Type} (src : List α) (sel : List Int)
    (hne : sel ≠ [])
    (hbad : ∃ p ∈ sel, (src.length : Int) < p ∨ p < 1 - (src.length : Int)) :
    extractPages src sel = Except.error ExtractError.PageIndexOutOfRange := by
  simp [extractPages, hne, addPages_none src sel hbad]

theorem claim_C3_witness :
    (([2] : List Int) ≠ [] ∧
      ∃ p ∈ ([2] : List Int),
        ((([5] : List Nat).length : Int) < p ∨ p < 1 - (([5] : List Nat).length : Int))) ∧
    extractPages ([5] : List Nat) ([2] : List Int) =
      Except.error ExtractError.PageIndexOutOfRange :=
  ⟨⟨by decide, by decide⟩,
    claim_C3_index_out_of_range ([5] : List Nat) ([2] : List Int) (by decide) (by decide)⟩

/-- C4: extraction with an empty selection always fails with
`EmptySelection` (the guard at line 139) and produces no output PDF. -/
theorem claim_C4_empty_selection {α : Type} (src : List α) :
    extractPages src ([] : List Int) = Except.error ExtractError.EmptySelection := rfl

/-! ### Claims about format conversion -/

/-- C5: when the declared filename's (case-insensitive) extension is `pdf`,
conversion returns the input bytes unchanged — no re-serialization and no
validation. -/
theorem claim_C5_pdf_passthrough (env : Env) (file : UploadedFile)
    (fontPath : Option String) (h : fileExt file.name = "pdf") :
    convert_to_pdf env file fontPath = Except.ok (PdfBytes.raw file.data) := by
  simp [convert_to_pdf, h]

theorem claim_C5_witness :
    fileExt "report.PDF" = "pdf" ∧
    convert_to_pdf envDefault (UploadedFile.mk "report.PDF" [37, 80, 68, 70]) none =
      Except.ok (PdfBytes.raw [37, 80, 68, 70]) :=
  ⟨rfl, claim_C5_pdf_passthrough envDefault (UploadedFile.mk "report.PDF" [37, 80, 68, 70])
    none rfl⟩

/-- C6: when the declared extension is outside the supported set
`{pdf, png, jpg, jpeg, bmp, gif, tiff, txt, md, docx}`, conversion fails with
`UnsupportedFormat` carrying the offending extension string, producing no
output. -/
theorem claim_C6_unsupported_format (env : Env) (file : UploadedFile)
    (fontPath : Option String) (h : fileExt file.name ∉ supportedExts) :
    convert_to_pdf env file fontPath =
      Except.error (ConvertError.UnsupportedFormat (fileExt file.name)) := by
  simp only [supportedExts, imageExts, List.cons_append, List.nil_append,
    List.mem_cons, List.not_mem_nil, or_false, not_or] at h
  obtain ⟨h1, h2, h3, h4, h5, h6, h7, h8, h9, h10⟩ := h
  simp [convert_to_pdf, imageExts, h1, h2, h3, h4, h5, h6, h7, h8, h9, h10]

theorem claim_C6_witness :
    fileExt "data.xyz" ∉ supportedExts ∧
    convert_to_pdf envDefault (UploadedFile.mk "data.xyz" [1]) none =
      Except.error (ConvertError.UnsupportedFormat "xyz") := by
  refine ⟨by decide, ?_⟩
  have e : fileExt "data.xyz" = "xyz" := rfl
  have := claim_C6_unsupported_format envDefault (UploadedFile.mk "data.xyz" [1]) none
    (by decide)
  rwa [e] at this

/-- C9: a filename with no `.` is its own extension after lowercasing: a file
literally named `PDF` passes through unchanged as if it were a PDF, and a
file named `notes` fails as unsupported format `notes`. -/
theorem claim_C9_dotless_name (name : String) (h : '.' ∉ name.data) :
    fileExt name = String.mk (pyLower name.data) ∧
    (∀ (env : Env) (d : Bytes) (fontPath : Option String),
      convert_to_pdf env (UploadedFile.mk "PDF" d) fontPath =
        Except.ok (PdfBytes.raw d)) ∧
    (∀ (env : Env) (d : Bytes) (fontPath : Option String),
      convert_to_pdf env (UploadedFile.mk "notes" d) fontPath =
        Except.error (ConvertError.UnsupportedFormat "notes")) :=
  ⟨by simp [fileExt, splitDot_no_dot name.data h],
    fun _ _ _ => rfl, fun _ _ _ => rfl⟩

theorem claim_C9_witness :
    ('.' ∉ "notes".data) ∧
    (fileExt "notes" = String.mk (pyLower "notes".data) ∧
      (∀ (env : Env) (d : Bytes) (fontPath : Option String),
        convert_to_pdf env (UploadedFile.mk "PDF" d) fontPath =
          Except.ok (PdfBytes.raw d)) ∧
      (∀ (env : Env) (d : Bytes) (fontPath : Option String),
        convert_to_pdf env (UploadedFile.mk "notes" d) fontPath =
          Except.error (ConvertError.UnsupportedFormat "notes"))) :=
  ⟨by decide, claim_C9_dotless_name "notes" (by decide)⟩

/-- Flowable lists concatenate paragraphwise. -/
theorem paragraphsOf_append (a b : List Flowable) :
    paragraphsOf (a ++ b) = paragraphsOf a ++ paragraphsOf b := by
  simp [paragraphsOf]

/-- The flowable-building loop of `create_pdf_from_text` emits one paragraph
per split segment, in order, with newlines replaced by `<br/>` markup. -/
theorem flow_build_paragraphs (font : String) :
    ∀ (ps : List (List Char)) (acc : List Flowable),
      paragraphsOf (List.foldl
        (fun flow para =>
          flow ++ [Flowable.para (String.mk (replaceNl para)) font, Flowable.spacer 1 6])
        acc ps) = paragraphsOf acc ++ ps.map (fun p => String.mk (replaceNl p))
  | [], acc => by simp
  | p :: ps, acc => by
    rw [List.foldl_cons, flow_build_paragraphs font ps]
    simp [paragraphsOf_append, paragraphsOf]

/-- C7: the renderer splits its input on double newlines, each segment
becoming exactly one paragraph, with every single newline inside a segment
turned into the `<br/>` hard-line-break markup rather than a new paragraph;
in particular `"Hello\n\nWorld"` yields the two paragraphs `"Hello"` and
`"World"`. -/
theorem claim_C7_paragraph_split (registerOk : String → Bool)
    (fontPath : Option String) (text : String) :
    paragraphsOf (create_pdf_from_text registerOk text fontPath) =
      (splitPar text.data).map (fun p => String.mk (replaceNl p)) ∧
    paragraphsOf (create_pdf_from_text registerOk "Hello\n\nWorld" fontPath) =
      ["Hello", "World"] := by
  have key : ∀ t : String,
      paragraphsOf (create_pdf_from_text registerOk t fontPath) =
        (splitPar t.data).map (fun p => String.mk (replaceNl p)) := by
    intro t
    simp only [create_pdf_from_text]
    rw [flow_build_paragraphs]
    simp [paragraphsOf]
  refine ⟨key text, ?_⟩
  rw [key]
  decide

/-- C8 counterexample: a grayscale-plus-alpha image (Pillow mode `LA`, as
decoded from a grayscale PNG with an alpha channel) carries an alpha channel,
yet conversion leaves its mode untouched — the code's check covers only
`RGBA` and `P` — so the image embedded in the output is not flattened to a
plain RGB representation. -/
theorem claim_C8_counterexample :
    modeCarriesAlphaOrPalette (envLA.decodeImage [1]).mode = true ∧
    convert_to_pdf envLA (UploadedFile.mk "photo.png" [1]) none =
      Except.ok (PdfBytes.imagePdf (PILImage.mk "LA" 3 4)) ∧
    (PILImage.mk "LA" 3 4).mode ≠ "RGB" :=
  ⟨by decide, rfl, by decide⟩

/-- C8 amended: for a supported raster-image extension, conversion decodes
the image and flattens it to RGB exactly when the decoded mode is `RGBA` or
`P` (other alpha-carrying modes such as `LA` pass through unflattened); the
result wraps the single decoded image, whose native pixel dimensions are
preserved, as a one-image PDF. -/
theorem claim_C8_image_branch (env : Env) (file : UploadedFile)
    (fontPath : Option String) (h : fileExt file.name ∈ imageExts) :
    convert_to_pdf env file fontPath =
      Except.ok (PdfBytes.imagePdf (flattenImage (env.decodeImage file.data))) ∧
    (flattenImage (env.decodeImage file.data)).width =
      (env.decodeImage file.data).width ∧
    (flattenImage (env.decodeImage file.data)).height =
      (env.decodeImage file.data).height ∧
    ((env.decodeImage file.data).mode = "RGBA" ∨ (env.decodeImage file.data).mode = "P" →
      (flattenImage (env.decodeImage file.data)).mode = "RGB") ∧
    (¬((env.decodeImage file.data).mode = "RGBA" ∨ (env.decodeImage file.data).mode = "P") →
      flattenImage (env.decodeImage file.data) = env.decodeImage file.data) := by
  have hpdf : fileExt file.name ≠ "pdf" := by
    intro e
    rw [e] at h
    exact absurd h (by decide)
  refine ⟨by simp [convert_to_pdf, hpdf, h], ?_, ?_, ?_, ?_⟩ <;>
    by_cases hc : (env.decodeImage file.data).mode = "RGBA" ∨
        (env.decodeImage file.data).mode = "P" <;>
      simp [flattenImage, hc]

theorem claim_C8_witness :
    fileExt "scan.png" ∈ imageExts ∧
    (convert_to_pdf envDefault (UploadedFile.mk "scan.png" [7]) none =
        Except.ok (PdfBytes.imagePdf (flattenImage (envDefault.decodeImage [7]))) ∧
      (flattenImage (envDefault.decodeImage [7])).width =
        (envDefault.decodeImage [7]).width ∧
      (flattenImage (envDefault.decodeImage [7])).height =
        (envDefault.decodeImage [7]).height ∧
      ((envDefault.decodeImage [7]).mode = "RGBA" ∨ (envDefault.decodeImage [7]).mode = "P" →
        (flattenImage (envDefault.decodeImage [7])).mode = "RGB") ∧
      (¬((envDefault.decodeImage [7]).mode = "RGBA" ∨ (envDefault.decodeImage [7]).mode = "P") →
        flattenImage (envDefault.decodeImage [7]) = envDefault.decodeImage [7])) :=
  ⟨by decide, claim_C8_image_branch envDefault (UploadedFile.mk "scan.png" [7]) none (by decide)⟩

/-! ### Noninjectivity of the text renderer (newline vs literal markup) -/

/-- Python split never produces an empty segment list. -/
theorem splitPar_ne_nil : ∀ s : List Char, splitPar s ≠ []
  | [] => by simp [splitPar]
  | [c] => by simp [splitPar]
  | c :: d :: rest => by
    simp only [splitPar]
    by_cases h : c = '\n' ∧ d = '\n'
    · simp [h]
    · simp only [if_neg h]
      cases splitPar (d :: rest) <;> simp

/-- Prepending a character that does not complete a `"\n\n"` separator
prepends it to the first split segment. -/
theorem splitPar_cons_cons (c d : Char) (rest : List Char)
    (h : ¬(c = '\n' ∧ d = '\n')) :
    ∃ hd tl, splitPar (d :: rest) = hd :: tl ∧
      splitPar (c :: d :: rest) = (c :: hd) :: tl := by
  cases e : splitPar (d :: rest) with
  | nil => exact absurd e (splitPar_ne_nil _)
  | cons hd tl =>
    refine ⟨hd, tl, rfl, ?_⟩
    simp [splitPar, h, e]

/-- A leading double newline opens an empty segment and splits the rest. -/
theorem splitPar_nlnl (rest : List Char) :
    splitPar ('\n' :: '\n' :: rest) = [] :: splitPar rest := by
  simp [splitPar]

/-- Newline replacement distributes over concatenation. -/
theorem replaceNl_append (a b : List Char) :
    replaceNl (a ++ b) = replaceNl a ++ replaceNl b := by
  induction a with
  | nil => rfl
  | cons c a ih => by_cases hc : c = '\n' <;> simp [replaceNl, hc, ih]

/-- Newline replacement is a congruence under prepending one character. -/
theorem replaceNl_cons_congr (c : Char) {a b : List Char}
    (h : replaceNl a = replaceNl b) : replaceNl (c :: a) = replaceNl (c :: b) := by
  by_cases hc : c = '\n' <;> simp [replaceNl, hc, h]

/-- Prepending a run of non-newline characters prepends it to the first
split segment. -/
theorem splitPar_prepend_ne :
    ∀ pre : List Char, (∀ c ∈ pre, c ≠ '\n') →
      ∀ (x : Char) (xs : List Char), ∃ hd tl, splitPar (x :: xs) = hd :: tl ∧
        splitPar (pre ++ x :: xs) = (pre ++ hd) :: tl
  | [], _, x, xs => by
    cases e : splitPar (x :: xs) with
    | nil => exact absurd e (splitPar_ne_nil _)
    | cons hd tl => exact ⟨hd, tl, rfl, by simpa using e⟩
  | c :: pre', h, x, xs => by
    obtain ⟨hd, tl, e1, e2⟩ :=
      splitPar_prepend_ne pre' (fun a ha => h a (List.mem_cons_of_mem _ ha)) x xs
    have hc : c ≠ '\n' := h c (List.mem_cons_self _ _)
    cases epre : pre' ++ x :: xs with
    | nil => exact absurd epre (by simp)
    | cons y ys =>
      obtain ⟨hd2, tl2, f1, f2⟩ := splitPar_cons_cons c y ys (fun hh => hc hh.1)
      rw [← epre] at f1 f2
      rw [e2] at f1
      injection f1 with ha hb
      subst ha
      subst hb
      exact ⟨hd, tl, e1, by simpa using f2⟩

/-- Replacing the first in-paragraph newline of a text by the literal markup
`"<br/>"` leaves the split segments equal after newline replacement. -/
theorem splitPar_br_collision (v : List Char) (hv : v.head? ≠ some '\n') :
    ∀ u : List Char, u.getLast? ≠ some '\n' →
      (splitPar (u ++ '\n' :: v)).map replaceNl =
        (splitPar (u ++ brChars ++ v)).map replaceNl
  | [], _ => by
    cases v with
    | nil => decide
    | cons w v' =>
      have hw : w ≠ '\n' := by simpa using hv
      obtain ⟨hd, tl, e1, e2⟩ := splitPar_cons_cons '\n' w v' (fun hh => hw hh.2)
      obtain ⟨hd2, tl2, f1, f2⟩ := splitPar_prepend_ne brChars (by decide) w v'
      rw [e1] at f1
      injection f1 with ha hb
      subst ha
      subst hb
      simp only [List.nil_append]
      rw [e2, f2]
      have hbr : replaceNl brChars = brChars := by decide
      simp [brChars, replaceNl, replaceNl_append, hbr]
  | [c], hu => by
    have hc : c ≠ '\n' := by simpa using hu
    have base := splitPar_br_collision v hv [] (by simp)
    simp only [List.nil_append] at base
    obtain ⟨h1, t1, a1, b1⟩ := splitPar_cons_cons c '\n' v (fun hh => hc hh.1)
    obtain ⟨h2, t2, a2, b2⟩ :=
      splitPar_cons_cons c '<' ('b' :: 'r' :: '/' :: '>' :: v) (by simp)
    simp only [brChars, List.cons_append, List.nil_append] at base
    rw [a1, a2] at base
    simp only [List.map_cons, List.cons.injEq] at base
    simp only [brChars, List.cons_append, List.nil_append]
    rw [b1, b2]
    simp only [List.map_cons, List.cons.injEq]
    exact ⟨replaceNl_cons_congr c base.1, base.2⟩
  | c :: d :: u'', hu => by
    have hu' : (d :: u'').getLast? ≠ some '\n' := by
      rwa [List.getLast?_cons_cons] at hu
    by_cases hcd : c = '\n' ∧ d = '\n'
    · obtain ⟨rfl, rfl⟩ := hcd
      cases u'' with
      | nil => exact absurd (by decide) hu
      | cons e u₃ =>
        have hu'' : (e :: u₃).getLast? ≠ some '\n' := by
          rwa [List.getLast?_cons_cons] at hu'
        have ih := splitPar_br_collision v hv (e :: u₃) hu''
        simp only [List.cons_append, List.append_assoc] at ih ⊢
        rw [splitPar_nlnl, splitPar_nlnl]
        simp only [List.map_cons, List.cons.injEq]
        exact ⟨trivial, ih⟩
    · have ih := splitPar_br_collision v hv (d :: u'') hu'
      simp only [List.cons_append, List.append_assoc] at ih ⊢
      obtain ⟨h1, t1, a1, b1⟩ := splitPar_cons_cons c d (u'' ++ '\n' :: v) hcd
      obtain ⟨h2, t2, a2, b2⟩ := splitPar_cons_cons c d (u'' ++ (brChars ++ v)) hcd
      rw [a1, a2] at ih
      simp only [List.map_cons, List.cons.injEq] at ih
      rw [b1, b2]
      simp only [List.map_cons, List.cons.injEq]
      exact ⟨replaceNl_cons_congr c ih.1, ih.2⟩

/-- The flowable-building loop only sees segments through newline
replacement, so segment lists with equal replacements build equal flows. -/
theorem flow_build_congr (font : String) :
    ∀ (ps qs : List (List Char)), ps.map replaceNl = qs.map replaceNl →
      ∀ acc : List Flowable,
        List.foldl
          (fun flow para =>
            flow ++ [Flowable.para (String.mk (replaceNl para)) font, Flowable.spacer 1 6])
          acc ps =
        List.foldl
          (fun flow para =>
            flow ++ [Flowable.para (String.mk (replaceNl para)) font, Flowable.spacer 1 6])
          acc qs
  | [], qs, h, acc => by
    have : qs = [] := by simpa using h.symm
    rw [this]
  | p :: ps, qs, h, acc => by
    cases qs with
    | nil => simp at h
    | cons q qs' =>
      simp only [List.map_cons, List.cons.injEq] at h
      rw [List.foldl_cons, List.foldl_cons, h.1, flow_build_congr font ps qs' h.2]

/-- C10: the renderer is not injective in the presence of literal markup —
a text with a single newline inside a paragraph and the text with the literal
`"<br/>"` at that same position are distinct inputs yet produce identical
flowable output, because in-paragraph newlines are replaced by the literal
string `"<br/>"` before reaching the markup-interpreting paragraph engine. -/
theorem claim_C10_markup_collision (u v : List Char)
    (hu : u.getLast? ≠ some '\n') (hv : v.head? ≠ some '\n') :
    String.mk (u ++ '\n' :: v) ≠ String.mk (u ++ brChars ++ v) ∧
    ∀ (registerOk : String → Bool) (fontPath : Option String),
      create_pdf_from_text registerOk (String.mk (u ++ '\n' :: v)) fontPath =
        create_pdf_from_text registerOk (String.mk (u ++ brChars ++ v)) fontPath := by
  constructor
  · intro e
    have hd : u ++ '\n' :: v = u ++ brChars ++ v := congrArg String.data e
    have := congrArg List.length hd
    simp [brChars] at this
  · intro registerOk fontPath
    simp only [create_pdf_from_text]
    exact flow_build_congr _ _ _ (splitPar_br_collision v hv u hu) []

theorem claim_C10_witness :
    ((['H'] : List Char).getLast? ≠ some '\n' ∧
      (['W'] : List Char).head? ≠ some '\n') ∧
    (String.mk (['H'] ++ '\n' :: ['W']) ≠ String.mk (['H'] ++ brChars ++ ['W']) ∧
      ∀ (registerOk : String → Bool) (fontPath : Option String),
        create_pdf_from_text registerOk (String.mk (['H'] ++ '\n' :: ['W'])) fontPath =
          create_pdf_from_text registerOk (String.mk (['H'] ++ brChars ++ ['W'])) fontPath) :=
  ⟨⟨by decide, by decide⟩, claim_C10_markup_collision ['H'] ['W'] (by decide) (by decide)⟩
